import Mathlib

/-!
Shallow embedding of the MISO index pipeline
(`MISO_calculations.py` and `Plotting_MISO_rotated_unfiltered_new.py`).

Conventions of the embedding:
* An xarray `DataArray` with a time axis is a `List α` of per-time values
  (`α = List ℚ` when a latitude axis is present), together with a separate
  list of time-coordinate labels (`List Int`).
* A NaN produced by `shift` is `none`; defined values are `some v`.
* Python `ValueError` / `KeyError` / `IndexError` are `Except.error` with a
  message derived from the source.
* Machine floats are modelled as exact rationals `ℚ`.
-/

set_option autoImplicit false

namespace MISO

instance {ε α : Type} [DecidableEq ε] [DecidableEq α] : DecidableEq (Except ε α) := fun
  | .error a, .error b =>
    if h : a = b then .isTrue (by rw [h]) else .isFalse (fun hh => h (Except.error.inj hh))
  | .error _, .ok _ => .isFalse (fun hh => Except.noConfusion hh)
  | .ok _, .error _ => .isFalse (fun hh => Except.noConfusion hh)
  | .ok a, .ok b =>
    if h : a = b then .isTrue (by rw [h]) else .isFalse (fun hh => h (Except.ok.inj hh))

/-- xarray `data.shift({time_dim: -i})` for a nonnegative shift `i`
(`MISO_calculations.py` line 81): the value at output time `t` is the input
value at time `t + i` when that index exists, and NaN (`none`) for the last
`i` output positions.  The length of the time axis is unchanged. -/
def shiftNegTime {α : Type} (data : List α) (i : Nat) : List (Option α) :=
  (List.range data.length).map (fun t => data[t + i]?)

/-- The result of `prepare_data_for_eeof` (`MISO_calculations.py` lines
33-111): the lag labels assigned to the new `embedding` coordinate, the
(possibly trimmed) time coordinate, and the stacked rows, one per lag,
each a time series whose entries may be NaN. -/
structure Embedded (α : Type) where
  lags : List Int
  times : List Int
  rows : List (List (Option α))
  deriving DecidableEq, Repr

/-- `prepare_data_for_eeof` from `MISO_calculations.py` lines 33-111.
`data` is the input series along the time axis (one `α` per time step),
`times` its time coordinate.  Validates `embedding ≥ 1` and `tau ≥ 0`,
builds the `embedding` shifted copies at lags `[0, tau, 2*tau, ...]`,
and trims the last `(embedding - 1) * tau` time steps when that amount is
positive; the `isel(slice(None, -n))` trim keeps the first
`n_times_original - n_samples_cut` entries of every copy and of the time
coordinate.  The final `else` branch mirrors the dead
"Internal error" branch of the source. -/
def prepare_data_for_eeof {α : Type} (data : List α) (times : List Int)
    (tau : Int) (embedding : Int) : Except String (Embedded α) :=
  if embedding < 1 then
    .error "Embedding dimension must be at least 1."
  else if tau < 0 then
    .error "Time lag tau cannot be negative."
  else
    let n_times_original := data.length
    let shifts : List Int := (List.range embedding.toNat).map (fun k => Int.ofNat k * tau)
    let shifted_data_list : List (List (Option α)) :=
      shifts.map (fun i => shiftNegTime data i.toNat)
    let n_samples_cut : Int := (embedding - 1) * tau
    if 0 < n_samples_cut then
      if (n_times_original : Int) ≤ n_samples_cut then
        .error "Cannot cut samples: resulting number of samples would be non-positive."
      else
        .ok ⟨shifts, times.take (n_times_original - n_samples_cut.toNat),
          shifted_data_list.map (fun r => r.take (n_times_original - n_samples_cut.toNat))⟩
    else if n_samples_cut = 0 then
      .ok ⟨shifts, times, shifted_data_list⟩
    else
      .error "Internal error: Invalid n_samples_cut calculation."

theorem shiftNegTime_length {α : Type} (data : List α) (i : Nat) :
    (shiftNegTime data i).length = data.length := by
  simp [shiftNegTime]

theorem shiftNegTime_getElem? {α : Type} (data : List α) (i t : Nat)
    (ht : t < data.length) :
    (shiftNegTime data i)[t]? = some data[t + i]? := by
  simp [shiftNegTime, List.getElem?_map, List.getElem?_range, ht]

/-- When the arguments pass validation and enough samples remain, the
result of `prepare_data_for_eeof` is `ok` with the lag labels
`[0, tau, ..., (embedding-1)*tau]`, the time coordinate cut down to the
first `L - (embedding-1)*tau` entries, and one shifted-and-trimmed copy of
the data per lag. -/
theorem prepare_eq_ok {α : Type} (data : List α) (times : List Int)
    (tau embedding : Int)
    (h1 : 1 ≤ embedding) (h2 : 0 ≤ tau)
    (htimes : times.length = data.length)
    (h3 : (embedding - 1) * tau < (data.length : Int)) :
    prepare_data_for_eeof data times tau embedding =
      .ok ⟨(List.range embedding.toNat).map (fun k => Int.ofNat k * tau),
        times.take (data.length - ((embedding - 1) * tau).toNat),
        ((List.range embedding.toNat).map (fun k => Int.ofNat k * tau)).map
          (fun i => (shiftNegTime data i.toNat).take
            (data.length - ((embedding - 1) * tau).toNat))⟩ := by
  have hcut : 0 ≤ (embedding - 1) * tau := mul_nonneg (by omega) h2
  unfold prepare_data_for_eeof
  rw [if_neg (by omega), if_neg (by omega)]
  by_cases hpos : 0 < (embedding - 1) * tau
  · rw [if_pos hpos, if_neg (by omega)]
    simp [List.map_map, Function.comp]
  · have hzero : (embedding - 1) * tau = 0 := le_antisymm (by omega) hcut
    rw [if_neg hpos, if_pos hzero, hzero]
    have htake : ∀ (l : List (Option α)), l.length = data.length →
        l = l.take (data.length - (0 : Int).toNat) := by
      intro l hl
      simp [← hl]
    congr 1
    refine Embedded.mk.injEq .. ▸ ?_
    refine ⟨rfl, ?_, ?_⟩
    · simp [← htimes]
    · exact List.map_congr_left fun i _ =>
        htake _ (shiftNegTime_length data i.toNat)

/-- Every lag in the list `shifts = [0, tau, ..., (embedding-1)*tau]` lies
between `0` and `(embedding-1)*tau`. -/
theorem mem_shifts_bound (tau embedding : Int) (h2 : 0 ≤ tau) (i : Int)
    (hi : i ∈ (List.range embedding.toNat).map (fun k => Int.ofNat k * tau)) :
    0 ≤ i ∧ i ≤ (embedding - 1) * tau := by
  simp only [List.mem_map, List.mem_range] at hi
  obtain ⟨k, hk, rfl⟩ := hi
  refine ⟨mul_nonneg (Int.natCast_nonneg k) h2, ?_⟩
  have hk' : (k : Int) ≤ embedding - 1 := by omega
  exact mul_le_mul_of_nonneg_right hk' h2

/-- C1: for every input series of length `L`, every `tau ≥ 0` and
`embedding ≥ 1` with `L > (embedding-1)*tau`, `prepare_data_for_eeof`
returns an array whose trimmed-time length is exactly
`L - (embedding-1)*tau`, and no entry of any lagged copy within the
trimmed time range is NaN. -/
theorem prepare_trimmed_length_no_nan {α : Type} (data : List α)
    (times : List Int) (tau embedding : Int)
    (h1 : 1 ≤ embedding) (h2 : 0 ≤ tau)
    (htimes : times.length = data.length)
    (h3 : (embedding - 1) * tau < (data.length : Int)) :
    ∃ em : Embedded α, prepare_data_for_eeof data times tau embedding = .ok em ∧
      (em.times.length : Int) = (data.length : Int) - (embedding - 1) * tau ∧
      ∀ row ∈ em.rows,
        (row.length : Int) = (data.length : Int) - (embedding - 1) * tau ∧
        ∀ x ∈ row, x.isSome := by
  have hcut : 0 ≤ (embedding - 1) * tau := mul_nonneg (by omega) h2
  refine ⟨_, prepare_eq_ok data times tau embedding h1 h2 htimes h3, ?_, ?_⟩
  · simp only [List.length_take, htimes]
    omega
  · intro row hrow
    obtain ⟨i, hi, rfl⟩ := List.mem_map.mp hrow
    obtain ⟨hi0, hile⟩ := mem_shifts_bound tau embedding h2 i hi
    constructor
    · simp only [List.length_take, shiftNegTime_length]
      omega
    · intro x hx
      rw [List.mem_iff_getElem] at hx
      obtain ⟨t, ht, rfl⟩ := hx
      have htk : t < data.length - ((embedding - 1) * tau).toNat := by
        simp only [List.length_take, shiftNegTime_length] at ht
        omega
      have h5 : ((shiftNegTime data i.toNat).take
            (data.length - ((embedding - 1) * tau).toNat))[t]? =
          some data[t + i.toNat]? := by
        rw [List.getElem?_take_of_lt htk]
        exact shiftNegTime_getElem? data i.toNat t (by omega)
      rw [List.getElem?_eq_getElem ht] at h5
      rw [Option.some.inj h5]
      have h4 : t + i.toNat < data.length := by omega
      simp [List.getElem?_eq_getElem h4]

/-- Witness for C1 at a concrete input: four samples, `tau = 1`,
`embedding = 2`. -/
theorem prepare_trimmed_length_no_nan_witness :
    ∃ em : Embedded ℚ,
      prepare_data_for_eeof [10, 20, 30, 40] [0, 1, 2, 3] 1 2 = .ok em ∧
      (em.times.length : Int) =
        (([10, 20, 30, 40] : List ℚ).length : Int) - ((2 : Int) - 1) * 1 ∧
      ∀ row ∈ em.rows,
        (row.length : Int) =
          (([10, 20, 30, 40] : List ℚ).length : Int) - ((2 : Int) - 1) * 1 ∧
        ∀ x ∈ row, x.isSome :=
  prepare_trimmed_length_no_nan [10, 20, 30, 40] [0, 1, 2, 3] 1 2
    (by decide) (by decide) (by decide) (by decide)

theorem toNat_mul_of_nonneg (a b : Int) (ha : 0 ≤ a) (hb : 0 ≤ b) :
    (a * b).toNat = a.toNat * b.toNat := by
  rw [← Int.toNat_of_nonneg ha, ← Int.toNat_of_nonneg hb, ← Int.natCast_mul,
    Int.toNat_natCast, Int.toNat_natCast, Int.toNat_natCast]

/-- C2: under the validity conditions, the `k`-th lagged copy holds, at
output time index `t`, the original series' value at time index
`t + k*tau`, and the embedding axis carries exactly the lag labels
`[0, tau, 2*tau, ..., (embedding-1)*tau]`. -/
theorem prepare_lag_values {α : Type} (data : List α)
    (times : List Int) (tau embedding : Int)
    (h1 : 1 ≤ embedding) (h2 : 0 ≤ tau)
    (htimes : times.length = data.length)
    (h3 : (embedding - 1) * tau < (data.length : Int)) :
    ∃ em : Embedded α, prepare_data_for_eeof data times tau embedding = .ok em ∧
      em.lags = (List.range embedding.toNat).map (fun k => Int.ofNat k * tau) ∧
      ∀ k, k < embedding.toNat →
        ∀ t, t < data.length - ((embedding - 1) * tau).toNat →
          ∃ row v, em.rows[k]? = some row ∧
            data[t + k * tau.toNat]? = some v ∧ row[t]? = some (some v) := by
  refine ⟨_, prepare_eq_ok data times tau embedding h1 h2 htimes h3, rfl, ?_⟩
  intro k hk t ht
  have hcutNat : ((embedding - 1) * tau).toNat = (embedding - 1).toNat * tau.toNat :=
    toNat_mul_of_nonneg _ _ (by omega) h2
  have hklag : (Int.ofNat k * tau).toNat = k * tau.toNat := by
    rw [show Int.ofNat k = ((k : Nat) : Int) from rfl]
    exact toNat_mul_of_nonneg _ _ (Int.natCast_nonneg k) h2
  have hkcut : k * tau.toNat ≤ ((embedding - 1) * tau).toNat := by
    rw [hcutNat]
    exact Nat.mul_le_mul_right _ (by omega)
  have h4 : t + k * tau.toNat < data.length := by omega
  refine ⟨(shiftNegTime data (Int.ofNat k * tau).toNat).take
      (data.length - ((embedding - 1) * tau).toNat), data[t + k * tau.toNat], ?_, ?_, ?_⟩
  · rw [List.getElem?_map, List.getElem?_map, List.getElem?_range hk]
    rfl
  · exact List.getElem?_eq_getElem h4
  · rw [List.getElem?_take_of_lt ht,
      shiftNegTime_getElem? data (Int.ofNat k * tau).toNat t (by omega), hklag,
      List.getElem?_eq_getElem h4]

/-- Witness for C2 at a concrete input: four samples, `tau = 1`,
`embedding = 2`; at `k = 1`, `t = 0` the lagged copy holds the original
value at time `1`. -/
theorem prepare_lag_values_witness :
    ∃ em : Embedded ℚ,
      prepare_data_for_eeof [10, 20, 30, 40] [0, 1, 2, 3] 1 2 = .ok em ∧
      em.lags = (List.range (2 : Int).toNat).map (fun k => Int.ofNat k * 1) ∧
      ∀ k, k < (2 : Int).toNat →
        ∀ t, t < ([10, 20, 30, 40] : List ℚ).length - (((2 : Int) - 1) * 1).toNat →
          ∃ row v, em.rows[k]? = some row ∧
            ([10, 20, 30, 40] : List ℚ)[t + k * (1 : Int).toNat]? = some v ∧
            row[t]? = some (some v) :=
  prepare_lag_values [10, 20, 30, 40] [0, 1, 2, 3] 1 2
    (by decide) (by decide) (by decide) (by decide)

/-- `data.shift({time_dim: 0})` leaves the data unchanged apart from
wrapping every entry in `some` (no NaN is introduced). -/
theorem shiftNegTime_zero {α : Type} (data : List α) :
    shiftNegTime data 0 = data.map some := by
  apply List.ext_getElem?
  intro i
  by_cases hi : i < data.length
  · rw [shiftNegTime_getElem? data 0 i hi]
    simp [List.getElem?_map, List.getElem?_eq_getElem hi]
  · rw [List.getElem?_eq_none (by rw [shiftNegTime_length]; omega),
      List.getElem?_eq_none (by simpa using by omega)]

/-- C3 (amended): `prepare_data_for_eeof` returns an invalid-argument
error if and only if `embedding < 1`, or `tau < 0`, or the trim amount
`(embedding-1)*tau` is positive and at least the original sample count.
(When the trim amount is zero — in particular for `embedding = 1` on a
zero-length input — the function returns without error even though the
trim amount equals the sample count.) -/
theorem prepare_error_iff {α : Type} (data : List α) (times : List Int)
    (tau embedding : Int) :
    (∃ msg, prepare_data_for_eeof data times tau embedding = .error msg) ↔
      embedding < 1 ∨ tau < 0 ∨
        (0 < (embedding - 1) * tau ∧
          (data.length : Int) ≤ (embedding - 1) * tau) := by
  have hcut0 : ¬embedding < 1 → ¬tau < 0 → 0 ≤ (embedding - 1) * tau :=
    fun ha hb => mul_nonneg (by omega) (by omega)
  unfold prepare_data_for_eeof
  simp only []
  split_ifs with h1 h2 h3 h4 h5
  · exact iff_of_true ⟨_, rfl⟩ (Or.inl h1)
  · exact iff_of_true ⟨_, rfl⟩ (Or.inr (Or.inl h2))
  · exact iff_of_true ⟨_, rfl⟩ (Or.inr (Or.inr ⟨h3, h4⟩))
  · refine iff_of_false (by simp) ?_
    intro h
    rcases h with h | h | ⟨-, h⟩
    exacts [h1 h, h2 h, h4 h]
  · refine iff_of_false (by simp) ?_
    intro h
    rcases h with h | h | ⟨hh, -⟩
    exacts [h1 h, h2 h, absurd (h5 ▸ hh) (lt_irrefl 0)]
  · exact absurd (le_antisymm (not_lt.mp h3) (hcut0 h1 h2)) h5

/-- C3 counterexample: with `embedding = 1`, `tau = 0` and a zero-length
input, the trim amount (0) equals the original sample count (0), yet
`prepare_data_for_eeof` returns successfully instead of raising — the
claimed "if and only if" fails in the boundary case it singles out. -/
theorem prepare_error_iff_counterexample :
    prepare_data_for_eeof ([] : List ℚ) [] 0 1 = .ok ⟨[0], [], [[]]⟩ ∧
    ((1 : Int) - 1) * 0 ≥ ((([] : List ℚ).length : Int)) :=
  ⟨by rfl, by decide⟩

/-- C4: with `embedding = 1` the input is returned unchanged modulo the
added singleton lag axis: same values (wrapped as defined entries), the
same time coordinates, no trimming, for every valid `tau ≥ 0`. -/
theorem prepare_embedding_one {α : Type} (data : List α) (times : List Int)
    (tau : Int) (h2 : 0 ≤ tau) :
    prepare_data_for_eeof data times tau 1 = .ok ⟨[0], times, [data.map some]⟩ := by
  unfold prepare_data_for_eeof
  rw [if_neg (by omega), if_neg (by omega)]
  have hcut : ((1 : Int) - 1) * tau = 0 := by ring
  rw [if_neg (by omega), if_pos hcut]
  have hr1 : List.range 1 = [0] := rfl
  simp [shiftNegTime_zero, hr1, Function.comp]

/-- Witness for C4 at a concrete input: two samples, `tau = 5`. -/
theorem prepare_embedding_one_witness :
    prepare_data_for_eeof ([1, 2] : List ℚ) [7, 8] 5 1 =
      .ok ⟨[0], [7, 8], [[some 1, some 2]]⟩ :=
  prepare_embedding_one [1, 2] [7, 8] 5 (by decide)

/-- C10: once the preconditions `embedding ≥ 1` and `tau ≥ 0` have
passed, the trim amount `(embedding-1)*tau` is never negative, so the
final branch raising "Internal error: Invalid n_samples_cut calculation."
is unreachable: the function never returns that error. -/
theorem internal_error_unreachable {α : Type} (data : List α)
    (times : List Int) (tau embedding : Int)
    (h1 : 1 ≤ embedding) (h2 : 0 ≤ tau) :
    prepare_data_for_eeof data times tau embedding ≠
      .error "Internal error: Invalid n_samples_cut calculation." := by
  have hcut : 0 ≤ (embedding - 1) * tau := mul_nonneg (by omega) h2
  unfold prepare_data_for_eeof
  rw [if_neg (by omega), if_neg (by omega)]
  by_cases h3 : 0 < (embedding - 1) * tau
  · rw [if_pos h3]
    by_cases h4 : (data.length : Int) ≤ (embedding - 1) * tau
    · rw [if_pos h4]
      intro h
      injection h with h'
      exact absurd h' (by decide)
    · rw [if_neg h4]
      simp
  · rw [if_neg h3, if_pos (le_antisymm (not_lt.mp h3) hcut)]
    simp

/-- Witness for C10 at a concrete input (`embedding = 15`, `tau = 1`, a
one-sample series, where the "insufficient samples" branch is taken — but
never the internal-error branch). -/
theorem internal_error_unreachable_witness :
    prepare_data_for_eeof ([1] : List ℚ) [0] 1 15 ≠
      .error "Internal error: Invalid n_samples_cut calculation." :=
  internal_error_unreachable [1] [0] 1 15 (by decide) (by decide)

/-! ### Ensemble mean (`Plotting_MISO_rotated_unfiltered_new.py`, lines 296-308)

An `IndexSeries` is a date-keyed association list `List (Int × ℚ)`: each
entry pairs a calendar date with the index value at that date. -/

/-- The value a date-indexed series holds at date `d`, `none` when the
series has no entry at that date. -/
def valueAt (s : List (Int × ℚ)) (d : Int) : Option ℚ :=
  (s.find? (fun p => p.1 == d)).map Prod.snd

/-- xarray binary `+` on two date-indexed series
(`miso1_total += miso1_data`, lines 299-304): the automatic alignment
performed by arithmetic is an inner join on the coordinate, so the sum
holds exactly the dates present in both operands. -/
def addAligned (x y : List (Int × ℚ)) : List (Int × ℚ) :=
  x.filterMap (fun p => (valueAt y p.1).map (fun v => (p.1, p.2 + v)))

/-- `miso1_average` / `miso2_average` (lines 296-308): `miso1_total`
starts at the integer `0`, so the first `+=` returns the first member's
series unchanged; each further `+=` inner-joins on the date coordinate;
the total is finally divided by `num_entries`, the number of
(initialization, member) pairs summed. -/
def miso_average (series : List (List (Int × ℚ))) : List (Int × ℚ) :=
  match series with
  | [] => []
  | s :: rest =>
    (rest.foldl addAligned s).map
      (fun p => (p.1, p.2 / ((rest.length + 1 : Nat) : ℚ)))

/-- C5 counterexample: with member A `[1,2,3]` at dates `0,1,2` and
member B missing the middle date (`[3,5]` at dates `0,2`), the computed
mean series is `[(0,2),(2,4)]` — the middle date is dropped entirely by
the inner-join alignment, so the mean at date `1` is absent rather than
equal to the remaining member's value `2`. -/
theorem miso_average_counterexample :
    miso_average [[(0, 1), (1, 2), (2, 3)], [(0, 3), (2, 5)]] = [(0, 2), (2, 4)] ∧
    valueAt (miso_average [[(0, 1), (1, 2), (2, 3)], [(0, 3), (2, 5)]]) 1 = none := by
  refine ⟨?_, ?_⟩ <;>
    simp [miso_average, addAligned, valueAt, List.find?, List.filterMap] <;> norm_num

/-- C5 (amended): the ensemble mean is the unweighted average over all
(initialization, member) pairs aligned by calendar date restricted to the
dates present in every member: for two members the mean at each of A's
dates also present in B is the average of the two values (`[2,3,4]` in
the spec's example), and a date missing from any member is dropped from
the mean series entirely (inner-join alignment) rather than averaged
over the remaining members. -/
theorem miso_average_inner_join :
    (∀ x y : List (Int × ℚ), miso_average [x, y] =
      x.filterMap (fun p => (valueAt y p.1).map (fun v => (p.1, (p.2 + v) / 2)))) ∧
    miso_average [[(0, 1), (1, 2), (2, 3)], [(0, 3), (1, 4), (2, 5)]] =
      [(0, 2), (1, 3), (2, 4)] ∧
    miso_average [[(0, 1), (1, 2), (2, 3)], [(0, 3), (2, 5)]] = [(0, 2), (2, 4)] := by
  refine ⟨?_, ?_, ?_⟩
  · intro x y
    simp only [miso_average, List.foldl, addAligned, List.map_filterMap]
    refine List.filterMap_congr fun p _ => ?_
    cases valueAt y p.1 with
    | none => rfl
    | some v =>
      simp only [Option.map_some']
      norm_num
  · simp [miso_average, addAligned, valueAt, List.find?, List.filterMap] <;> norm_num
  · simp [miso_average, addAligned, valueAt, List.find?, List.filterMap] <;> norm_num

/-! ### Anomaly constructor for OLR (`MISO_calculations.py`, lines 184-186)

A forecast series is a list of (day-of-year, value) pairs; a
`ClimatologyTable` is a list of (day-of-year, profile value) pairs. -/

/-- The anomaly construction
`olr_forecast - olr_clim_grouped.sel(dayofyear=day_of_year)`
(`MISO_calculations.py` lines 184-186): for each forecast timestamp its
day-of-year is looked up in the climatology table — `sel` with an absent
label raises `KeyError` — and the matching profile is subtracted. -/
def olrForecastAnomaly : List (Nat × ℚ) → List (Nat × ℚ) → Except String (List ℚ)
  | [], _ => .ok []
  | p :: rest, clim =>
    match clim.find? (fun q => q.1 == p.1) with
    | none => .error "KeyError: dayofyear not found in climatology"
    | some q =>
      match olrForecastAnomaly rest clim with
      | .error e => .error e
      | .ok l => .ok ((p.2 - q.2) :: l)

/-- C9: when the climatology table only has day-of-year entries up to 365
(non-leap reference), the anomaly constructor raises a lookup error for
any input series containing a timestamp with day-of-year 366. -/
theorem anomaly_leap_day_lookup_error (forecast clim : List (Nat × ℚ))
    (hclim : ∀ q ∈ clim, q.1 ≤ 365)
    (hleap : 366 ∈ forecast.map Prod.fst) :
    ∃ msg, olrForecastAnomaly forecast clim = .error msg := by
  induction forecast with
  | nil => simp at hleap
  | cons p rest ih =>
    simp only [List.map_cons, List.mem_cons] at hleap
    cases hfind : clim.find? (fun q => q.1 == p.1) with
    | none =>
      exact ⟨"KeyError: dayofyear not found in climatology",
        by simp [olrForecastAnomaly, hfind]⟩
    | some q =>
      have hq : q ∈ clim := List.mem_of_find?_eq_some hfind
      have hqe : q.1 = p.1 := by
        have := List.find?_some hfind
        exact beq_iff_eq.mp this
      have hp : p.1 ≠ 366 := fun h => by
        have := hclim q hq
        omega
      rcases hleap with h | h
      · exact absurd h.symm hp
      · obtain ⟨msg, hmsg⟩ := ih h
        exact ⟨msg, by simp [olrForecastAnomaly, hfind, hmsg]⟩

/-- Witness for C9: a full 365-entry climatology table and a one-sample
forecast at day-of-year 366. -/
theorem anomaly_leap_day_lookup_error_witness :
    ∃ msg, olrForecastAnomaly [(366, 1)]
      ((List.range 365).map (fun k => (k + 1, (0 : ℚ)))) = .error msg :=
  anomaly_leap_day_lookup_error [(366, 1)]
    ((List.range 365).map (fun k => (k + 1, (0 : ℚ))))
    (by
      intro q hq
      simp only [List.mem_map, List.mem_range] at hq
      obtain ⟨k, hk, rfl⟩ := hq
      omega)
    (by simp)

/-! ### Score projection (`MISO_calculations.py`, lines 222-230)

The `EigenvectorSet` `eeofs` is a 3-axis array mode × embedding-lag ×
latitude, modelled as `List (List (List ℚ))`; an `EmbeddedMatrix` is an
`Embedded (List ℚ)` whose rows are per-lag time series of latitude
profiles. -/

/-- The element-wise product summed over latitude for one (mode-lag
eigenvector, data profile) pair.  A zip truncates at the shorter list,
mirroring aligned broadcasting for matching axes. -/
def dotQ (xs ys : List ℚ) : ℚ :=
  ((xs.zip ys).map (fun p => p.1 * p.2)).sum

/-- Sum of a list of possibly-NaN values; any NaN poisons the sum, as in
floating-point arithmetic. -/
def optionSum : List (Option ℚ) → Option ℚ
  | [] => some 0
  | none :: _ => none
  | some a :: xs =>
    match optionSum xs with
    | some b => some (a + b)
    | none => none

/-- `(eeofs * lagged).sum(dim=['embedding', 'lat'])` at a single mode and
a single trimmed-time index `t`: pair the mode's per-lag eigenvectors with
the per-lag data rows, contract each pair over latitude, and sum over the
embedding axis. -/
def rawScoreAt (modeVecs : List (List ℚ)) (rows : List (List (Option (List ℚ))))
    (t : Nat) : Option ℚ :=
  optionSum ((modeVecs.zip rows).map (fun p => (p.2[t]?.join).map (dotQ p.1)))

/-- The raw (un-normalized) scores of `MISO_calculations.py` line 224:
one time series per mode over the trimmed time axis. -/
def rawScores (eeofs : List (List (List ℚ))) (em : Embedded (List ℚ)) :
    List (List (Option ℚ)) :=
  eeofs.map (fun modeVecs =>
    (List.range em.times.length).map (fun t => rawScoreAt modeVecs em.rows t))

theorem dotQ_zero (vec : List ℚ) (n : Nat) :
    dotQ vec (List.replicate n 0) = 0 := by
  apply List.sum_eq_zero
  intro x hx
  simp only [List.mem_map] at hx
  obtain ⟨p, hp, rfl⟩ := hx
  have h2 := (List.of_mem_zip hp).2
  rw [List.eq_of_mem_replicate h2, mul_zero]

theorem optionSum_zeros (l : List (Option ℚ)) (h : ∀ x ∈ l, x = some 0) :
    optionSum l = some 0 := by
  induction l with
  | nil => rfl
  | cons x xs ih =>
    rw [h x (List.mem_cons_self x xs)]
    simp only [optionSum, ih (fun y hy => h y (List.mem_cons_of_mem x hy))]
    norm_num

/-- Each row of the embedding of an all-zero series holds, at each
trimmed-time index, the all-zero profile. -/
theorem prepare_replicate_rows (L nLat : Nat) (times : List Int)
    (tau embedding : Int)
    (h1 : 1 ≤ embedding) (h2 : 0 ≤ tau)
    (htimes : times.length = L)
    (h3 : (embedding - 1) * tau < (L : Int)) :
    ∃ em : Embedded (List ℚ),
      prepare_data_for_eeof (List.replicate L (List.replicate nLat (0 : ℚ)))
        times tau embedding = .ok em ∧
      em.times.length = L - ((embedding - 1) * tau).toNat ∧
      ∀ row ∈ em.rows, ∀ t, t < L - ((embedding - 1) * tau).toNat →
        row[t]?.join = some (List.replicate nLat (0 : ℚ)) := by
  have hL : (List.replicate L (List.replicate nLat (0 : ℚ))).length = L :=
    List.length_replicate L _
  have hcut : 0 ≤ (embedding - 1) * tau := mul_nonneg (by omega) h2
  refine ⟨_, prepare_eq_ok _ times tau embedding h1 h2 (by rw [htimes, hL])
    (by rw [hL]; exact h3), ?_, ?_⟩
  · simp only [List.length_take, htimes, hL]
    omega
  · intro row hrow t ht
    obtain ⟨i, hi, rfl⟩ := List.mem_map.mp hrow
    obtain ⟨hi0, hile⟩ := mem_shifts_bound tau embedding h2 i hi
    have ht' : t < (List.replicate L (List.replicate nLat (0 : ℚ))).length -
        ((embedding - 1) * tau).toNat := by rw [hL]; exact ht
    rw [List.getElem?_take_of_lt ht',
      shiftNegTime_getElem? _ i.toNat t (by rw [hL]; omega)]
    have hrep : (List.replicate L (List.replicate nLat (0 : ℚ)))[t + i.toNat]? =
        some (List.replicate nLat (0 : ℚ)) := by
      rw [List.getElem?_eq_getElem (by rw [hL]; omega)]
      congr 1
      exact List.getElem_replicate _ _
    rw [hrep]
    rfl

/-- C6: for every `EigenvectorSet`, projecting an `EmbeddedMatrix` built
from an all-zero anomaly series (element-wise multiply by the
eigenvectors, sum over the embedding-lag and latitude axes) yields
all-zero raw scores before normalization. -/
theorem zero_series_zero_raw_scores (eeofs : List (List (List ℚ)))
    (L nLat : Nat) (times : List Int) (tau embedding : Int)
    (h1 : 1 ≤ embedding) (h2 : 0 ≤ tau)
    (htimes : times.length = L)
    (h3 : (embedding - 1) * tau < (L : Int)) :
    ∃ em : Embedded (List ℚ),
      prepare_data_for_eeof (List.replicate L (List.replicate nLat (0 : ℚ)))
        times tau embedding = .ok em ∧
      ∀ modeRow ∈ rawScores eeofs em, ∀ x ∈ modeRow, x = some 0 := by
  obtain ⟨em, hok, hlen, hrows⟩ :=
    prepare_replicate_rows L nLat times tau embedding h1 h2 htimes h3
  refine ⟨em, hok, ?_⟩
  intro modeRow hmode x hx
  obtain ⟨modeVecs, -, rfl⟩ := List.mem_map.mp hmode
  obtain ⟨t, htr, rfl⟩ := List.mem_map.mp hx
  rw [List.mem_range, hlen] at htr
  unfold rawScoreAt
  apply optionSum_zeros
  intro y hy
  obtain ⟨p, hp, rfl⟩ := List.mem_map.mp hy
  have h2r := (List.of_mem_zip hp).2
  rw [hrows p.2 h2r t htr]
  simp [dotQ_zero]

/-- Witness for C6 at a concrete input: one mode, two time steps, one
latitude, `tau = 1`, `embedding = 1`. -/
theorem zero_series_zero_raw_scores_witness :
    ∃ em : Embedded (List ℚ),
      prepare_data_for_eeof (List.replicate 2 (List.replicate 1 (0 : ℚ)))
        [0, 1] 1 1 = .ok em ∧
      ∀ modeRow ∈ rawScores [[[1]]] em, ∀ x ∈ modeRow, x = some 0 :=
  zero_series_zero_raw_scores [[[1]]] 2 1 [0, 1] 1 1
    (by decide) (by decide) (by decide) (by decide)

/-- A named scalar time series — an `IndexSeries` such as
`miso1_score[ini][member]` with its `name` attribute and its (re-stamped)
time coordinate. -/
structure NamedSeries where
  name : String
  times : List Int
  values : List (Option ℚ)
  deriving DecidableEq, Repr

/-- The per-(initialization, member) score block of `MISO_calculations.py`
lines 219-230: concatenate the lagged-analysis anomalies with the
member's forecast anomalies along time, lag-embed with `tau = 1`,
`embedding = 15`, contract the eigenvectors against the embedding and
divide each mode by its entry of `miso_scores_std`, re-stamp the time
coordinate with the forecast's own time axis
(`assign_coords(time=precip_forecast_anom[ini][member].time)` — an
operation that requires the replacement coordinate to have the length of
the trimmed axis), and extract mode 0 as `MISO1_<ini[:8]>_<member>` and
mode 1 as `MISO2_<ini[:8]>_<member>`. -/
def miso_member_scores (eeofs : List (List (List ℚ))) (miso_scores_std : List ℚ)
    (lagTimes : List Int) (lagVals : List (List ℚ))
    (fcTimes : List Int) (fcVals : List (List ℚ))
    (ini member : String) : Except String (NamedSeries × NamedSeries) :=
  match prepare_data_for_eeof (lagVals ++ fcVals) (lagTimes ++ fcTimes) 1 15 with
  | .error e => .error e
  | .ok em =>
    let raw := rawScores eeofs em
    let normalized := (raw.zip miso_scores_std).map
      (fun p => p.1.map (fun x => x.map (fun q => q / p.2)))
    if fcTimes.length = em.times.length then
      match normalized with
      | m0 :: m1 :: _ =>
        .ok (⟨"MISO1_" ++ ini.take 8 ++ "_" ++ member, fcTimes, m0⟩,
          ⟨"MISO2_" ++ ini.take 8 ++ "_" ++ member, fcTimes, m1⟩)
      | _ => .error "IndexError: fewer than two score modes"
    else .error "ValueError: conflicting sizes for dimension time"

/-- C7: whenever the score block succeeds, both output series carry the
forecast's own valid-time axis as their time coordinate (not the
lag-embedding's internal index), and exactly two named series are
produced: mode 0 named `MISO1_<init date>_<member>` and mode 1 named
`MISO2_<init date>_<member>`. -/
theorem miso_member_scores_output (eeofs : List (List (List ℚ)))
    (miso_scores_std : List ℚ) (lagTimes : List Int) (lagVals : List (List ℚ))
    (fcTimes : List Int) (fcVals : List (List ℚ)) (ini member : String)
    (s1 s2 : NamedSeries)
    (h : miso_member_scores eeofs miso_scores_std lagTimes lagVals fcTimes
      fcVals ini member = .ok (s1, s2)) :
    s1.times = fcTimes ∧ s2.times = fcTimes ∧
    s1.name = "MISO1_" ++ ini.take 8 ++ "_" ++ member ∧
    s2.name = "MISO2_" ++ ini.take 8 ++ "_" ++ member := by
  unfold miso_member_scores at h
  cases hp : prepare_data_for_eeof (lagVals ++ fcVals) (lagTimes ++ fcTimes) 1 15 with
  | error e =>
    rw [hp] at h
    exact absurd h (by simp)
  | ok em =>
    rw [hp] at h
    simp only [] at h
    split at h
    · split at h
      · simp only [Except.ok.injEq, Prod.mk.injEq] at h
        obtain ⟨hs1, hs2⟩ := h
        subst hs1
        subst hs2
        exact ⟨rfl, rfl, rfl, rfl⟩
      · exact absurd h (by simp)
    · exact absurd h (by simp)

/-- Witness for C7 at a concrete successful run: 14 lag-history samples
plus a 1-sample forecast, two modes of eigenvectors, unit standard
deviations, `ini = "20240609T0000Z"`, `member = "mem1"`. -/
theorem miso_member_scores_output_witness :
    ("MISO1_20240609_mem1" : String) = "MISO1_" ++ ("20240609T0000Z").take 8 ++ "_" ++ "mem1" ∧
    (⟨"MISO1_20240609_mem1", [14], [some 0]⟩ : NamedSeries).times = [14] ∧
    (⟨"MISO2_20240609_mem1", [14], [some 0]⟩ : NamedSeries).times = [14] := by
  have h := miso_member_scores_output
    [List.replicate 15 [1], List.replicate 15 [1]] [1, 1]
    [0, 1, 2, 3, 4, 5, 6, 7, 8, 9, 10, 11, 12, 13] (List.replicate 14 [0])
    [14] [[0]] "20240609T0000Z" "mem1"
    ⟨"MISO1_20240609_mem1", [14], [some 0]⟩
    ⟨"MISO2_20240609_mem1", [14], [some 0]⟩
    (by with_unfolding_all rfl)
  exact ⟨h.2.2.1, h.1 ▸ rfl, h.2.1 ▸ rfl⟩

/-! ### Forecast anchor date and output file names
(`MISO_calculations.py`, lines 116-139 and 247-248)

Calendar dates are proleptic Gregorian, as in Python's `datetime`. -/

structure Date where
  year : Nat
  month : Nat
  day : Nat
  deriving DecidableEq, Repr

def isLeapYear (y : Nat) : Bool :=
  (y % 4 == 0 && y % 100 != 0) || y % 400 == 0

def daysInMonth (y m : Nat) : Nat :=
  if m = 2 then (if isLeapYear y then 29 else 28)
  else if m = 4 ∨ m = 6 ∨ m = 9 ∨ m = 11 then 30 else 31

/-- Day count of a date in the proleptic Gregorian calendar
(`0001-01-01` is day 1). -/
def rataDie (dt : Date) : Nat :=
  let y := dt.year - 1
  365 * y + y / 4 - y / 100 + y / 400 +
    ((List.range (dt.month - 1)).map (fun i => daysInMonth dt.year (i + 1))).sum +
    dt.day

/-- `datetime.weekday()`: Monday = 0, ..., Thursday = 3, Sunday = 6.
`0001-01-01` was a Monday. -/
def weekday (dt : Date) : Nat :=
  (rataDie dt + 6) % 7

/-- The previous calendar day. -/
def predDay (dt : Date) : Date :=
  if dt.day > 1 then ⟨dt.year, dt.month, dt.day - 1⟩
  else if dt.month > 1 then ⟨dt.year, dt.month - 1, daysInMonth dt.year (dt.month - 1)⟩
  else ⟨dt.year - 1, 12, 31⟩

/-- `dt - timedelta(days=n)`. -/
def subDays (dt : Date) (n : Nat) : Date :=
  (List.range n).foldl (fun d _ => predDay d) dt

/-- `datetime.strptime(s, '%Y%m%d')`: parse an 8-digit `YYYYMMDD` string,
rejecting non-digits and out-of-range month/day fields. -/
def parse_ymd (s : String) : Option Date :=
  if s.length = 8 then
    match (s.take 4).toNat?, ((s.drop 4).take 2).toNat?, (s.drop 6).toNat? with
    | some y, some m, some d =>
      if 1 ≤ m ∧ m ≤ 12 ∧ 1 ≤ d ∧ d ≤ daysInMonth y m then some ⟨y, m, d⟩
      else none
    | _, _, _ => none
  else none

def padZeroTo (width : Nat) (n : Nat) : String :=
  let s := toString n
  String.mk (List.replicate (width - s.length) '0') ++ s

/-- `strftime('%Y%m%d')`. -/
def format_ymd (dt : Date) : String :=
  padZeroTo 4 dt.year ++ padZeroTo 2 dt.month ++ padZeroTo 2 dt.day

/-- `get_latest_thursday` (`MISO_calculations.py` lines 116-126): the
input date itself when it is a Thursday, otherwise the date minus
`(weekday - 3) mod 7` days — the most recent Thursday on/before it. -/
def get_latest_thursday (dt : Date) : Date :=
  if weekday dt = 3 then dt
  else subDays dt ((weekday dt + 7 - 3) % 7)

/-- `forecast_date = latest_thursday_date.strftime("%Y%m%dT0000Z")`
(line 135), starting from the `YYYYMMDD` command-line date string. -/
def forecast_date_of (input_date : String) : Option String :=
  (parse_ymd input_date).map (fun dt => format_ymd (get_latest_thursday dt) ++ "T0000Z")

/-- `initial = [...(forecast_date - timedelta(days=i))... for i in
range(4, 0, -1)]` (line 139). -/
def initial_of (thursday : Date) : List String :=
  ([4, 3, 2, 1] : List Nat).map (fun i => format_ymd (subDays thursday i) ++ "T0000Z")

/-- Base name of `file_path_1` (line 247):
`MISO1_CNCUM_IC_{initial[0][:8]}-{initial[-1][:8]}_FC_{forecast_date[:8]}.nc`. -/
def file_name_1 (initial : List String) (forecast_date : String) : String :=
  "MISO1_CNCUM_IC_" ++ (initial.headD "").take 8 ++ "-" ++
    (initial.getLastD "").take 8 ++ "_FC_" ++ forecast_date.take 8 ++ ".nc"

/-- Base name of `file_path_2` (line 248). -/
def file_name_2 (initial : List String) (forecast_date : String) : String :=
  "MISO2_CNCUM_IC_" ++ (initial.headD "").take 8 ++ "-" ++
    (initial.getLastD "").take 8 ++ "_FC_" ++ forecast_date.take 8 ++ ".nc"

/-- C8: for the fixed anchor-date argument `"20240613"` (a Thursday), the
selected forecast anchor is that date itself, the initializations are
exactly the four dates anchor minus 4,3,2,1 days (`20240609` through
`20240612`, in that order), and the output file names embed
`20240609-20240612` as the initialization range and `20240613` as the
forecast tag. -/
theorem anchor_20240613_initializations_and_names :
    parse_ymd "20240613" = some ⟨2024, 6, 13⟩ ∧
    weekday ⟨2024, 6, 13⟩ = 3 ∧
    get_latest_thursday ⟨2024, 6, 13⟩ = ⟨2024, 6, 13⟩ ∧
    forecast_date_of "20240613" = some "20240613T0000Z" ∧
    initial_of ⟨2024, 6, 13⟩ =
      ["20240609T0000Z", "20240610T0000Z", "20240611T0000Z", "20240612T0000Z"] ∧
    file_name_1 (initial_of ⟨2024, 6, 13⟩) "20240613T0000Z" =
      "MISO1_CNCUM_IC_20240609-20240612_FC_20240613.nc" ∧
    file_name_2 (initial_of ⟨2024, 6, 13⟩) "20240613T0000Z" =
      "MISO2_CNCUM_IC_20240609-20240612_FC_20240613.nc" := by
  refine ⟨by with_unfolding_all rfl, by decide, by decide, by with_unfolding_all rfl,
    by with_unfolding_all rfl, by with_unfolding_all rfl, by with_unfolding_all rfl⟩

end MISO
